import Mathlib

/-!
Verification development for the MLLP test-traffic sender
(src/mllp_sender.py).  The Python source is embedded shallowly:

* strings are modelled as lists of characters (Python `str.split` /
  `str.join` on single-character separators become `splitChar` /
  `joinChar`);
* bytes are modelled as lists of `Nat`;
* the configurable text codec (`str.encode(encoding, errors="strict")`)
  is an external stdlib collaborator, modelled as a partial function
  `List Char → Option (List Nat)` (`none` = `UnicodeEncodeError`);
* `uuid.uuid4()` is a fresh-token oracle `Nat → List Char` indexed by a
  counter in the run state;
* the network is an environment script: a list of events answering each
  socket operation (connect / sendall / recv outcome);
* `send_messages` becomes a fuel-bounded interpreter over that script,
  returning the final outcome, the unconsumed script, and a trace of
  observable actions (connection attempts, frames written, backoff
  sleeps).
-/

set_option maxHeartbeats 1000000

namespace MllpSender

/-! ### Byte constants (source lines 10-12) -/

def START_BLOCK : Nat := 0x0b
def END_BLOCK : Nat := 0x1c
def CARRIAGE_RETURN : Nat := 0x0d

/-! ### Python string primitives

`splitChar sep s` is Python `s.split(sep)` for a one-character
separator; `joinChar sep ps` is Python `sep.join(ps)`. -/

def splitChar (sep : Char) : List Char → List (List Char)
  | [] => [[]]
  | c :: cs =>
    let r := splitChar sep cs
    if c = sep then [] :: r
    else
      match r with
      | [] => [[c]]
      | g :: gs => (c :: g) :: gs

def joinChar (sep : Char) : List (List Char) → List Char
  | [] => []
  | [p] => p
  | p :: ps => p ++ sep :: joinChar sep ps

/-- Python substring test: `pat in s` (true when `pat` occurs as a
contiguous run of `s`, including the empty pattern). -/
def strContains (s pat : List Char) : Bool :=
  match s with
  | [] => pat.isEmpty
  | c :: cs => pat.isPrefixOf (c :: cs) || strContains cs pat

/-! ### Frame codec (source lines 15-17)

`build_mllp_frame` encodes the message with the configured codec in
strict mode and wraps the payload in the MLLP markers.  An encoding
failure (`UnicodeEncodeError`) is `none`. -/

def mllp_wrap (payload : List Nat) : List Nat :=
  START_BLOCK :: payload ++ [END_BLOCK, CARRIAGE_RETURN]

def build_mllp_frame (enc : List Char → Option (List Nat))
    (hl7_message : List Char) : Option (List Nat) :=
  (enc hl7_message).map mllp_wrap

/-- The spec's conceptual helper `IsTerminated`: the buffer ends with
the two-byte sequence 0x1C 0x0D. -/
def is_terminated (buffer : List Nat) : Bool :=
  [END_BLOCK, CARRIAGE_RETURN].isSuffixOf buffer

/-! ### MSH-10 rewrite (source lines 53-61)

The source checks `"MSH|" in message`, splits the message on `"\r"`,
splits the first segment on `"|"`, and if that segment has more than 9
fields overwrites field 9 with a fresh uuid string before re-joining. -/

def MSH_TAG : List Char := ['M', 'S', 'H', '|']

def rewrite_msh (uuid : List Char) (message : List Char) : List Char :=
  if strContains message MSH_TAG then
    match splitChar '\r' message with
    | [] => message
    | p0 :: rest =>
      let msh := splitChar '|' p0
      if msh.length > 9 then
        joinChar '\r' (joinChar '|' (msh.set 9 uuid) :: rest)
      else message
  else message

/-- The exact condition under which the source's rewrite branch fires
(and consumes one fresh uuid): `"MSH|" in message` and the first
`\r`-segment has more than 9 pipe-delimited fields. -/
def msh_trigger (message : List Char) : Bool :=
  strContains message MSH_TAG &&
    decide ((splitChar '|' ((splitChar '\r' message).headD [])).length > 9)

/-- The trigger condition as the spec words it: the first `\r`-segment
begins with the header tag `MSH|` and has at least ten pipe-delimited
fields.  Stated only to be compared against `msh_trigger`, which is the
condition the source actually tests. -/
def spec_trigger (message : List Char) : Bool :=
  MSH_TAG.isPrefixOf ((splitChar '\r' message).headD []) &&
    decide ((splitChar '|' ((splitChar '\r' message).headD [])).length ≥ 10)

/-! ### Exceptions

Exception classes relevant to the handler on source line 94,
`except (ConnectionRefusedError, TimeoutError, OSError)`:

* every exception a socket operation raises here (refusal, timeout,
  reset / generic I/O fault) is an `OSError` or a subclass of it
  (`ConnectionRefusedError <: OSError`, `TimeoutError <: OSError`), so
  every `NetExc` matches the tuple;
* `UnicodeEncodeError <: UnicodeError <: ValueError`, which is *not* a
  subclass of `OSError`, so it does not match the tuple;
* the bare `ValueError` raised on line 34 for an empty message list is
  raised outside the `try` and likewise does not match. -/

inductive NetExc
  | connectionRefused
  | timeoutErr
  | osErr
deriving DecidableEq

inductive PyExc
  | net (e : NetExc)
  | unicodeEncodeError
  | valueError
deriving DecidableEq

/-- Whether the `except (ConnectionRefusedError, TimeoutError, OSError)`
clause on source line 94 matches the raised exception. -/
def caught_by_fault_handler : PyExc → Bool
  | .net _ => true
  | .unicodeEncodeError => false
  | .valueError => false

/-! ### Run state, environment events, observable actions -/

/-- Mutable counters of the run (source lines 36-38) plus the index
feeding the uuid oracle. -/
structure St where
  attempt : Nat
  sentTotal : Nat
  cycle : Nat
  uuidIdx : Nat
deriving DecidableEq

/-- Environment events: the outcome of each socket operation, consumed
in program order. -/
inductive Ev
  | connectOk
  | connectFail (e : NetExc)
  | sendOk
  | sendFail (e : NetExc)
  | recv (data : List Nat)
  | recvFail (e : NetExc)
deriving DecidableEq

/-- Observable actions of a run: a connection attempt
(`socket.create_connection`), a frame handed to `sendall`, and a
backoff sleep of the given number of time units. -/
inductive Act
  | connect
  | frame (bs : List Nat)
  | backoff (n : Nat)
deriving DecidableEq

/-- The run parameters consumed by `send_messages` (host, port and the
timeout durations do not influence the untimed model and are
omitted). -/
structure Config where
  messages : List (List Char)
  repeatCount : Nat
  ack : Bool
  newConnEach : Bool
  enc : List Char → Option (List Nat)
  uuidGen : Nat → List Char

/-! ### The ACK read loop (source lines 66-78) -/

/-- The chunk test of source lines 74-77: the chunk contains the end
marker and ends with end marker + carriage return. -/
def ack_break (data : List Nat) : Bool :=
  data.contains END_BLOCK && is_terminated data

inductive AckRes
  | completed
  | raised (e : NetExc)
  | starving
deriving DecidableEq

structure AckOut where
  res : AckRes
  rest : List Ev
deriving DecidableEq

/-- The `while True: data = sock.recv(4096) ...` loop of source lines
69-77.  `completed` is `break` (peer closed, or the chunk test fired);
`starving` means the script supplied no further recv outcome, i.e. the
loop is still blocked in `recv`. -/
def ack_loop : List Ev → AckOut
  | .recv d :: evs =>
    if d = [] then ⟨.completed, evs⟩
    else if ack_break d then ⟨.completed, evs⟩
    else ack_loop evs
  | .recvFail e :: evs => ⟨.raised e, evs⟩
  | evs => ⟨.starving, evs⟩

/-! ### One iteration of the message loop (source lines 52-87) -/

inductive StepRes
  | next (st : St)
  | ret (st : St)
  | raised (e : PyExc) (st : St)
  | stuck (st : St)
deriving DecidableEq

structure MsgOut where
  res : StepRes
  rest : List Ev
  acts : List Act
deriving DecidableEq

/-- Source lines 80-87: increment `sent_total`, test the cap, sleep the
interval (untimed here), and optionally recycle the connection. -/
def finish_msg (cfg : Config) (st : St) (fr : List Nat) (evs : List Ev) :
    MsgOut :=
  let st2 := { st with sentTotal := st.sentTotal + 1 }
  if 0 < cfg.repeatCount ∧ cfg.repeatCount ≤ st2.sentTotal then
    ⟨.ret st2, evs, [.frame fr]⟩
  else if cfg.newConnEach then
    match evs with
    | .connectOk :: evs1 => ⟨.next st2, evs1, [.frame fr, .connect]⟩
    | .connectFail e :: evs1 => ⟨.raised (.net e) st2, evs1, [.frame fr, .connect]⟩
    | evs1 => ⟨.stuck st2, evs1, [.frame fr]⟩
  else ⟨.next st2, evs, [.frame fr]⟩

/-- The uuid oracle advances exactly when the rewrite branch fires
(the source calls `uuid.uuid4()` only inside the innermost `if`). -/
def uuid_bump (st : St) (m : List Char) : St :=
  if msh_trigger m then { st with uuidIdx := st.uuidIdx + 1 } else st

/-- Source lines 52-87: optional MSH-10 rewrite, framing, `sendall`,
optional ACK wait, then `finish_msg`. -/
def process_msg (cfg : Config) (st : St) (m : List Char) (evs : List Ev) :
    MsgOut :=
  let st1 := uuid_bump st m
  let m1 := rewrite_msh (cfg.uuidGen st.uuidIdx) m
  match build_mllp_frame cfg.enc m1 with
  | none => ⟨.raised .unicodeEncodeError st1, evs, []⟩
  | some fr =>
    match evs with
    | .sendOk :: evs1 =>
      if cfg.ack then
        match (ack_loop evs1).res with
        | .completed => finish_msg cfg st1 fr (ack_loop evs1).rest
        | .raised e => ⟨.raised (.net e) st1, (ack_loop evs1).rest, [.frame fr]⟩
        | .starving => ⟨.stuck st1, (ack_loop evs1).rest, [.frame fr]⟩
      else finish_msg cfg st1 fr evs1
    | .sendFail e :: evs1 => ⟨.raised (.net e) st1, evs1, [.frame fr]⟩
    | evs1 => ⟨.stuck st1, evs1, [.frame fr]⟩

/-- The `for message in messages_list` loop (source line 52). -/
def process_list (cfg : Config) : St → List (List Char) → List Ev → MsgOut
  | st, [], evs => ⟨.next st, evs, []⟩
  | st, m :: ms, evs =>
    let r := process_msg cfg st m evs
    match r.res with
    | .next st1 =>
      let r2 := process_list cfg st1 ms r.rest
      ⟨r2.res, r2.rest, r.acts ++ r2.acts⟩
    | _ => r

/-- The inner `while True` (source lines 50-87): bump `cycle`, run one
pass over the message list, repeat.  Never yields `.next`. -/
def inner_loop (cfg : Config) : Nat → St → List Ev → MsgOut
  | 0, st, evs => ⟨.stuck st, evs, []⟩
  | fuel + 1, st, evs =>
    let st1 := { st with cycle := st.cycle + 1 }
    let r := process_list cfg st1 cfg.messages evs
    match r.res with
    | .next st2 =>
      let r2 := inner_loop cfg fuel st2 r.rest
      ⟨r2.res, r2.rest, r.acts ++ r2.acts⟩
    | _ => r

inductive Outcome
  | done (st : St)
  | uncaught (e : PyExc) (st : St)
  | running (st : St)
deriving DecidableEq

structure RunRes where
  out : Outcome
  rest : List Ev
  acts : List Act
deriving DecidableEq

/-- The state change performed by the fault handler of source lines
94-96: only `attempt` is touched. -/
def fault_update (st : St) : St :=
  { st with attempt := st.attempt + 1 }

/-- The backoff slept on source lines 96-97, computed from the
already-incremented failure counter. -/
def backoff_of (st : St) : Nat :=
  min 30 (1 + st.attempt)

/-- The outer supervisory `while True` (source lines 40-99).  A
connection attempt consumes one event; a raised exception matching
`caught_by_fault_handler` increments `attempt` and sleeps the backoff
(source lines 94-97); one not matching propagates out of
`send_messages` (`.uncaught`).

Note the source's `else: attempt = 0` (line 99) is unreachable: the
`try` suite either raises or executes `return`, and a `try` body left
by `return` skips the `else` clause, so the model has no reset. -/
def outer_loop (cfg : Config) : Nat → St → List Ev → RunRes
  | 0, st, evs => ⟨.running st, evs, []⟩
  | fuel + 1, st, evs =>
    match evs with
    | .connectOk :: evs1 =>
      let r := inner_loop cfg fuel st evs1
      match r.res with
      | .ret st1 => ⟨.done st1, r.rest, .connect :: r.acts⟩
      | .raised e st1 =>
        if caught_by_fault_handler e then
          let st2 := fault_update st1
          let r2 := outer_loop cfg fuel st2 r.rest
          ⟨r2.out, r2.rest, .connect :: r.acts ++ .backoff (backoff_of st2) :: r2.acts⟩
        else ⟨.uncaught e st1, r.rest, .connect :: r.acts⟩
      | .stuck st1 => ⟨.running st1, r.rest, .connect :: r.acts⟩
      | .next st1 => ⟨.running st1, r.rest, .connect :: r.acts⟩
    | .connectFail e :: evs1 =>
      if caught_by_fault_handler (.net e) then
        let st2 := fault_update st
        let r2 := outer_loop cfg fuel st2 evs1
        ⟨r2.out, r2.rest, .connect :: .backoff (backoff_of st2) :: r2.acts⟩
      else ⟨.uncaught (.net e) st, evs1, [.connect]⟩
    | evs1 => ⟨.running st, evs1, []⟩

def initSt : St := ⟨0, 0, 0, 0⟩

/-- Source lines 20-99: `send_messages`.  The empty-message check of
lines 32-34 raises `ValueError` before any network activity. -/
def send_messages (cfg : Config) (evs : List Ev) (fuel : Nat) : RunRes :=
  if cfg.messages.isEmpty then ⟨.uncaught .valueError initSt, evs, []⟩
  else outer_loop cfg fuel initSt evs

/-! ### Trace observers -/

def backoff_list : List Act → List Nat
  | [] => []
  | .backoff n :: acts => n :: backoff_list acts
  | _ :: acts => backoff_list acts

def frame_count : List Act → Nat
  | [] => 0
  | .frame _ :: acts => frame_count acts + 1
  | _ :: acts => frame_count acts

/-- The cap has not yet been reached (or is unbounded). -/
def capOk (cap : Nat) (st : St) : Prop :=
  cap = 0 ∨ st.sentTotal < cap

instance (cap : Nat) (st : St) : Decidable (capOk cap st) := by
  unfold capOk; infer_instance

/-- The state carried by a `StepRes`. -/
def StepRes.state : StepRes → St
  | .next st => st
  | .ret st => st
  | .raised _ st => st
  | .stuck st => st

/-! ### Invariants of the interpreter, one per loop level -/

/-- What one execution of the message body guarantees relative to its
entry state. -/
def MsgInv (cfg : Config) (st : St) (r : MsgOut) : Prop :=
  backoff_list r.acts = [] ∧
  match r.res with
  | .next st1 =>
      st1.sentTotal = st.sentTotal + 1 ∧ st1.attempt = st.attempt ∧
      capOk cfg.repeatCount st1 ∧ frame_count r.acts = 1
  | .ret st1 =>
      st1.sentTotal = st.sentTotal + 1 ∧ st1.attempt = st.attempt ∧
      0 < cfg.repeatCount ∧ cfg.repeatCount ≤ st1.sentTotal ∧ frame_count r.acts = 1
  | .raised e st1 =>
      (st1.sentTotal = st.sentTotal ∨
        (st1.sentTotal = st.sentTotal + 1 ∧ capOk cfg.repeatCount st1)) ∧
      st1.attempt = st.attempt ∧
      e ≠ .valueError ∧ (e = .unicodeEncodeError → ∃ s, cfg.enc s = none)
  | .stuck st1 =>
      (st1.sentTotal = st.sentTotal ∨
        (st1.sentTotal = st.sentTotal + 1 ∧ capOk cfg.repeatCount st1)) ∧
      st1.attempt = st.attempt

/-- What a pass over the message list (and hence the whole inner loop)
guarantees relative to its entry state. -/
def LoopInv (cfg : Config) (st : St) (r : MsgOut) : Prop :=
  backoff_list r.acts = [] ∧
  match r.res with
  | .next st1 =>
      st.sentTotal ≤ st1.sentTotal ∧ st1.attempt = st.attempt ∧
      (capOk cfg.repeatCount st → capOk cfg.repeatCount st1) ∧
      frame_count r.acts = st1.sentTotal - st.sentTotal
  | .ret st1 =>
      st.sentTotal ≤ st1.sentTotal ∧ st1.attempt = st.attempt ∧
      0 < cfg.repeatCount ∧ cfg.repeatCount ≤ st1.sentTotal ∧
      frame_count r.acts = st1.sentTotal - st.sentTotal ∧
      (capOk cfg.repeatCount st → st1.sentTotal = cfg.repeatCount)
  | .raised e st1 =>
      st.sentTotal ≤ st1.sentTotal ∧ st1.attempt = st.attempt ∧
      (capOk cfg.repeatCount st → capOk cfg.repeatCount st1) ∧
      e ≠ .valueError ∧ (e = .unicodeEncodeError → ∃ s, cfg.enc s = none)
  | .stuck st1 =>
      st.sentTotal ≤ st1.sentTotal ∧ st1.attempt = st.attempt ∧
      (capOk cfg.repeatCount st → capOk cfg.repeatCount st1)

/-- What the supervisory loop guarantees relative to its entry state:
the backoff sleeps are `min 30 (attempt+2), min 30 (attempt+3), …`, the
failure counter grows by exactly the number of handled faults (it is
never reset), `sentTotal` never decreases, a normal return needs a
positive cap and hits it exactly, and an escaping exception is one the
handler does not match. -/
def RunInv (cfg : Config) (st : St) (r : RunRes) : Prop :=
  backoff_list r.acts =
    (List.range (backoff_list r.acts).length).map
      (fun i => min 30 (st.attempt + 2 + i)) ∧
  match r.out with
  | .done st1 =>
      0 < cfg.repeatCount ∧ st.sentTotal ≤ st1.sentTotal ∧
      st1.attempt = st.attempt + (backoff_list r.acts).length ∧
      (capOk cfg.repeatCount st → st1.sentTotal = cfg.repeatCount) ∧
      (backoff_list r.acts = [] → frame_count r.acts = st1.sentTotal - st.sentTotal)
  | .running st1 =>
      st.sentTotal ≤ st1.sentTotal ∧
      st1.attempt = st.attempt + (backoff_list r.acts).length ∧
      (capOk cfg.repeatCount st → capOk cfg.repeatCount st1)
  | .uncaught e st1 =>
      st.sentTotal ≤ st1.sentTotal ∧
      st1.attempt = st.attempt + (backoff_list r.acts).length ∧
      (capOk cfg.repeatCount st → capOk cfg.repeatCount st1) ∧
      caught_by_fault_handler e = false ∧ e ≠ .valueError ∧
      (e = .unicodeEncodeError → ∃ s, cfg.enc s = none)

/-! ### A concrete strict codec and concrete runs, used as witnesses -/

/-- A strict 7-bit codec: total exactly on lists of characters below
code point 128, mapping each to its code point. -/
def ascii_enc (m : List Char) : Option (List Nat) :=
  if m.all fun c => c.toNat < 128 then some (m.map Char.toNat) else none

/-- Decoder matching `ascii_enc`. -/
def ascii_dec (bs : List Nat) : Option (List Char) :=
  if bs.all fun b => b < 128 then some (bs.map Char.ofNat) else none

/-- A total codec (every message encodable), for runs that must not hit
an `EncodingError`. -/
def total_enc : List Char → Option (List Nat) :=
  fun m => some (m.map Char.toNat)

/-- A degenerate uuid oracle for runs whose messages are never
rewritten. -/
def no_uuid : Nat → List Char :=
  fun _ => []

def msgA : List Char := ['A']

/-- Cap 2, no ack, shared connection. -/
def cfg1 : Config := ⟨[msgA], 2, false, false, total_enc, no_uuid⟩

def sc1 : List Ev := [.connectOk, .sendOk, .sendOk]

/-- Unbounded cap, total codec. -/
def cfg0 : Config := ⟨[msgA], 0, false, false, total_enc, no_uuid⟩

/-- Script: one connection fault, then a successful connect and one
fully successful send, then a send fault. -/
def scC6 : List Ev := [.connectFail .osErr, .connectOk, .sendOk, .sendFail .osErr]

/-- A config whose codec rejects every message. -/
def cfgC2 : Config := ⟨[msgA], 0, false, false, (fun _ => none), no_uuid⟩

/-- Empty message set. -/
def cfgEmpty : Config := ⟨[], 3, false, false, total_enc, no_uuid⟩

/-- A canonical hyphenated uuid-shaped token (contains neither the
segment nor the field separator). -/
def uuidX : List Char :=
  ['0','0','0','0','0','0','0','0','-','0','0','0','0','-','4','0','0','0',
   '-','8','0','0','0','-','0','0','0','0','0','0','0','0','0','0','0','1']

/-- The message `PID|a|b|c|d|e|f|g|h|i|j\rMSH|x`: its *first* segment
does not begin with the header tag (it is a PID segment with 11
fields), but the string `MSH|` does occur later in the message. -/
def cexMsg : List Char :=
  ['P','I','D','|','a','|','b','|','c','|','d','|','e','|','f','|','g','|',
   'h','|','i','|','j','\r','M','S','H','|','x']

/-- A well-formed header message: first segment `MSH|a|…|j` with 11
pipe-delimited fields. -/
def mshMsg : List Char :=
  ['M','S','H','|','a','|','b','|','c','|','d','|','e','|','f','|','g','|',
   'h','|','i','|','j']

/-- The message `MSH|A`, its 7-bit code points, and its MLLP frame. -/
def msg7 : List Char := ['M', 'S', 'H', '|', 'A']

def pay7 : List Nat := [77, 83, 72, 124, 65]

def fr7 : List Nat := [11, 77, 83, 72, 124, 65, 28, 13]

/-! ### Lemmas about the string primitives -/

theorem splitChar_ne_nil (sep : Char) (s : List Char) : splitChar sep s ≠ [] := by
  induction s with
  | nil => simp [splitChar]
  | cons c cs ih =>
    simp only [splitChar]
    split
    · simp
    · cases h : splitChar sep cs with
      | nil => simp
      | cons g gs => simp

theorem not_mem_splitChar (sep : Char) (s : List Char) :
    ∀ p ∈ splitChar sep s, sep ∉ p := by
  induction s with
  | nil =>
    intro p hp
    simp [splitChar] at hp
    simp [hp]
  | cons c cs ih =>
    intro p hp
    simp only [splitChar] at hp
    by_cases hc : c = sep
    · rw [if_pos hc] at hp
      rcases List.mem_cons.mp hp with h | h
      · simp [h]
      · exact ih p h
    · rw [if_neg hc] at hp
      cases hsp : splitChar sep cs with
      | nil => exact absurd hsp (splitChar_ne_nil sep cs)
      | cons g gs =>
        rw [hsp] at hp
        rcases List.mem_cons.mp hp with h | h
        · subst h
          intro hmem
          rcases List.mem_cons.mp hmem with h1 | h1
          · exact hc h1.symm
          · exact ih g (hsp ▸ List.mem_cons_self g gs) h1
        · exact ih p (hsp ▸ List.mem_cons_of_mem g h)

theorem splitChar_sublist (sep : Char) (s : List Char) :
    ∀ p ∈ splitChar sep s, p.Sublist s := by
  induction s with
  | nil =>
    intro p hp
    simp [splitChar] at hp
    simp [hp]
  | cons c cs ih =>
    intro p hp
    simp only [splitChar] at hp
    by_cases hc : c = sep
    · rw [if_pos hc] at hp
      rcases List.mem_cons.mp hp with h | h
      · simp [h]
      · exact (ih p h).cons c
    · rw [if_neg hc] at hp
      cases hsp : splitChar sep cs with
      | nil => exact absurd hsp (splitChar_ne_nil sep cs)
      | cons g gs =>
        rw [hsp] at hp
        rcases List.mem_cons.mp hp with h | h
        · subst h
          exact (ih g (hsp ▸ List.mem_cons_self g gs)).cons₂ c
        · exact (ih p (hsp ▸ List.mem_cons_of_mem g h)).cons c

theorem splitChar_eq_single (sep : Char) (p : List Char) (h : sep ∉ p) :
    splitChar sep p = [p] := by
  induction p with
  | nil => rfl
  | cons c cs ih =>
    have hc : ¬(c = sep) := fun hh => h (hh ▸ List.mem_cons_self c cs)
    simp only [splitChar]
    rw [if_neg hc, ih fun hm => h (List.mem_cons_of_mem c hm)]

theorem splitChar_append (sep : Char) (p t : List Char) (h : sep ∉ p) :
    splitChar sep (p ++ sep :: t) = p :: splitChar sep t := by
  induction p with
  | nil => simp [splitChar]
  | cons c cs ih =>
    have hc : ¬(c = sep) := fun hh => h (hh ▸ List.mem_cons_self c cs)
    simp only [List.cons_append, splitChar, List.append_eq]
    rw [ih fun hm => h (List.mem_cons_of_mem c hm), if_neg hc]

theorem splitChar_joinChar (sep : Char) (ps : List (List Char))
    (hne : ps ≠ []) (h : ∀ p ∈ ps, sep ∉ p) :
    splitChar sep (joinChar sep ps) = ps := by
  induction ps with
  | nil => exact absurd rfl hne
  | cons p ps ih =>
    cases ps with
    | nil =>
      simpa [joinChar] using splitChar_eq_single sep p (h p (List.mem_cons_self p []))
    | cons q qs =>
      have hj : joinChar sep (p :: q :: qs) = p ++ sep :: joinChar sep (q :: qs) := rfl
      rw [hj, splitChar_append sep p _ (h p (List.mem_cons_self p _)),
        ih (by simp) fun r hr => h r (List.mem_cons_of_mem p hr)]

theorem mem_joinChar (sep : Char) (ps : List (List Char)) (c : Char) :
    c ∈ joinChar sep ps → c = sep ∨ ∃ p ∈ ps, c ∈ p := by
  induction ps with
  | nil => simp [joinChar]
  | cons p ps ih =>
    cases ps with
    | nil =>
      intro h
      right
      exact ⟨p, List.mem_cons_self p [], by simpa [joinChar] using h⟩
    | cons q qs =>
      intro h
      have hj : joinChar sep (p :: q :: qs) = p ++ sep :: joinChar sep (q :: qs) := rfl
      rw [hj] at h
      rcases List.mem_append.mp h with h1 | h1
      · exact Or.inr ⟨p, List.mem_cons_self p _, h1⟩
      · rcases List.mem_cons.mp h1 with h2 | h2
        · exact Or.inl h2
        · rcases ih h2 with h3 | ⟨r, hr, hcr⟩
          · exact Or.inl h3
          · exact Or.inr ⟨r, List.mem_cons_of_mem p hr, hcr⟩

/-! ### Lemmas about the ACK chunk test -/

theorem end_block_mem_of_terminated (d : List Nat) (h : is_terminated d = true) :
    END_BLOCK ∈ d := by
  have hs : [END_BLOCK, CARRIAGE_RETURN] <:+ d := by
    simpa [is_terminated] using h
  rcases hs with ⟨pre, hpre⟩
  subst hpre
  simp

/-- Since a chunk that ends with 0x1C 0x0D necessarily contains 0x1C,
the containment test on source line 74 is redundant: the loop-break
test is exactly `is_terminated` applied to the *last chunk*. -/
theorem ack_break_eq_is_terminated (d : List Nat) :
    ack_break d = is_terminated d := by
  unfold ack_break
  cases h : is_terminated d with
  | false => simp
  | true =>
    simp only [Bool.and_true]
    have hmem := end_block_mem_of_terminated d h
    simpa using hmem

/-! ### Trace observers distribute over concatenation -/

theorem backoff_list_append (a b : List Act) :
    backoff_list (a ++ b) = backoff_list a ++ backoff_list b := by
  induction a with
  | nil => rfl
  | cons x xs ih => cases x <;> simp [backoff_list, ih]

theorem frame_count_append (a b : List Act) :
    frame_count (a ++ b) = frame_count a + frame_count b := by
  induction a with
  | nil => simp [frame_count]
  | cons x xs ih => cases x <;> simp [frame_count, ih, Nat.add_right_comm]

/-! ### The per-level interpreter invariants -/

theorem uuid_bump_sent (st : St) (m : List Char) :
    (uuid_bump st m).sentTotal = st.sentTotal := by
  unfold uuid_bump; split <;> rfl

theorem uuid_bump_attempt (st : St) (m : List Char) :
    (uuid_bump st m).attempt = st.attempt := by
  unfold uuid_bump; split <;> rfl

theorem capOk_succ (cap : Nat) (st st1 : St)
    (hs : st1.sentTotal = st.sentTotal + 1)
    (h : ¬(0 < cap ∧ cap ≤ st1.sentTotal)) : capOk cap st1 := by
  unfold capOk
  omega

theorem raised_net_facts (cfg : Config) (e : NetExc) :
    PyExc.net e ≠ PyExc.valueError ∧
      (PyExc.net e = PyExc.unicodeEncodeError → ∃ s, cfg.enc s = none) :=
  ⟨fun h => PyExc.noConfusion h, fun h => PyExc.noConfusion h⟩

theorem uee_ne_valueError : PyExc.unicodeEncodeError ≠ PyExc.valueError :=
  fun h => PyExc.noConfusion h

theorem finish_msg_spec (cfg : Config) (st : St) (fr : List Nat) (evs : List Ev) :
    MsgInv cfg st (finish_msg cfg st fr evs) := by
  simp only [finish_msg]
  split
  case isTrue h =>
    exact ⟨rfl, rfl, rfl, h.1, h.2, rfl⟩
  case isFalse h =>
    have hcap : capOk cfg.repeatCount { st with sentTotal := st.sentTotal + 1 } :=
      capOk_succ cfg.repeatCount st _ rfl h
    split
    · split
      · exact ⟨rfl, rfl, rfl, hcap, rfl⟩
      · exact ⟨rfl, Or.inr ⟨rfl, hcap⟩, rfl, raised_net_facts cfg _⟩
      · exact ⟨rfl, Or.inr ⟨rfl, hcap⟩, rfl⟩
    · exact ⟨rfl, rfl, rfl, hcap, rfl⟩

/-- The uuid-counter bump changes neither `sentTotal` nor `attempt`, so
an invariant relative to the bumped state transfers to the original. -/
theorem msginv_of_bump (cfg : Config) (st : St) (m : List Char) (r : MsgOut)
    (h : MsgInv cfg (uuid_bump st m) r) : MsgInv cfg st r := by
  unfold MsgInv at h ⊢
  rw [uuid_bump_sent st m, uuid_bump_attempt st m] at h
  exact h

theorem process_msg_spec (cfg : Config) (st : St) (m : List Char) (evs : List Ev) :
    MsgInv cfg st (process_msg cfg st m evs) := by
  cases hb : build_mllp_frame cfg.enc (rewrite_msh (cfg.uuidGen st.uuidIdx) m) with
  | none =>
    simp only [process_msg, hb]
    exact ⟨rfl, Or.inl (uuid_bump_sent st m), uuid_bump_attempt st m,
      uee_ne_valueError, fun _ => ⟨rewrite_msh (cfg.uuidGen st.uuidIdx) m,
        Option.map_eq_none'.mp hb⟩⟩
  | some fr =>
    cases evs with
    | nil =>
      simp only [process_msg, hb]
      exact ⟨rfl, Or.inl (uuid_bump_sent st m), uuid_bump_attempt st m⟩
    | cons ev rest =>
      cases ev with
      | sendOk =>
        cases hAck : cfg.ack with
        | false =>
          simp only [process_msg, hb, hAck, Bool.false_eq_true, if_false]
          exact msginv_of_bump cfg st m _ (finish_msg_spec cfg (uuid_bump st m) fr rest)
        | true =>
          cases hres : (ack_loop rest).res with
          | completed =>
            simp only [process_msg, hb, hAck, if_true, hres]
            exact msginv_of_bump cfg st m _
              (finish_msg_spec cfg (uuid_bump st m) fr (ack_loop rest).rest)
          | raised e =>
            simp only [process_msg, hb, hAck, if_true, hres]
            exact ⟨rfl, Or.inl (uuid_bump_sent st m), uuid_bump_attempt st m,
              raised_net_facts cfg e⟩
          | starving =>
            simp only [process_msg, hb, hAck, if_true, hres]
            exact ⟨rfl, Or.inl (uuid_bump_sent st m), uuid_bump_attempt st m⟩
      | sendFail e =>
        simp only [process_msg, hb]
        exact ⟨rfl, Or.inl (uuid_bump_sent st m), uuid_bump_attempt st m,
          raised_net_facts cfg e⟩
      | connectOk =>
        simp only [process_msg, hb]
        exact ⟨rfl, Or.inl (uuid_bump_sent st m), uuid_bump_attempt st m⟩
      | connectFail e =>
        simp only [process_msg, hb]
        exact ⟨rfl, Or.inl (uuid_bump_sent st m), uuid_bump_attempt st m⟩
      | recv d =>
        simp only [process_msg, hb]
        exact ⟨rfl, Or.inl (uuid_bump_sent st m), uuid_bump_attempt st m⟩
      | recvFail e =>
        simp only [process_msg, hb]
        exact ⟨rfl, Or.inl (uuid_bump_sent st m), uuid_bump_attempt st m⟩

theorem process_list_spec (cfg : Config) (ms : List (List Char)) :
    ∀ (st : St) (evs : List Ev), LoopInv cfg st (process_list cfg st ms evs) := by
  induction ms with
  | nil =>
    intro st evs
    simp only [process_list]
    exact ⟨rfl, Nat.le_refl _, rfl, fun h => h, (Nat.sub_self _).symm⟩
  | cons m ms ih =>
    intro st evs
    have hm := process_msg_spec cfg st m evs
    unfold MsgInv at hm
    simp only [process_list]
    cases hr : (process_msg cfg st m evs).res with
    | next st1 =>
      rw [hr] at hm
      obtain ⟨hb0, hs1, ha1, hc1, hf1⟩ := hm
      have hl := ih st1 (process_msg cfg st m evs).rest
      unfold LoopInv at hl ⊢
      cases hr2 : (process_list cfg st1 ms (process_msg cfg st m evs).rest).res with
      | next st2 =>
        rw [hr2] at hl
        obtain ⟨hb2, hs2, ha2, hc2, hf2⟩ := hl
        refine ⟨?_, by omega, by omega, fun _ => hc2 hc1, ?_⟩
        · rw [backoff_list_append, hb0, hb2]
          rfl
        · rw [frame_count_append, hf1, hf2]
          omega
      | ret st1a =>
        rw [hr2] at hl
        obtain ⟨hb2, hs2, ha2, hpos, hle, hf2, hexact⟩ := hl
        refine ⟨?_, by omega, by omega, hpos, hle, ?_, fun _ => hexact hc1⟩
        · rw [backoff_list_append, hb0, hb2]
          rfl
        · rw [frame_count_append, hf1, hf2]
          omega
      | raised e st1a =>
        rw [hr2] at hl
        obtain ⟨hb2, hs2, ha2, hc2, he⟩ := hl
        exact ⟨by rw [backoff_list_append, hb0, hb2]; rfl,
          by omega, by omega, fun _ => hc2 hc1, he⟩
      | stuck st1a =>
        rw [hr2] at hl
        obtain ⟨hb2, hs2, ha2, hc2⟩ := hl
        exact ⟨by rw [backoff_list_append, hb0, hb2]; rfl,
          by omega, by omega, fun _ => hc2 hc1⟩
    | ret st1 =>
      show LoopInv cfg st (process_msg cfg st m evs)
      unfold LoopInv
      rw [hr] at hm ⊢
      obtain ⟨hb0, hs1, ha1, hpos, hle, hf1⟩ := hm
      refine ⟨hb0, by omega, ha1, hpos, hle, by omega, ?_⟩
      intro hc
      rcases hc with hc | hc <;> omega
    | raised e st1 =>
      show LoopInv cfg st (process_msg cfg st m evs)
      unfold LoopInv
      rw [hr] at hm ⊢
      obtain ⟨hs1, ha1, he⟩ := hm.2
      refine ⟨hm.1, ?_, ha1, ?_, he⟩
      · rcases hs1 with hs1 | ⟨hs1, _⟩ <;> omega
      · intro hc
        rcases hs1 with hs1 | ⟨hs1, hcap1⟩
        · rcases hc with hc | hc
          · exact Or.inl hc
          · exact Or.inr (by omega)
        · exact hcap1
    | stuck st1 =>
      show LoopInv cfg st (process_msg cfg st m evs)
      unfold LoopInv
      rw [hr] at hm ⊢
      obtain ⟨hs1, ha1⟩ := hm.2
      refine ⟨hm.1, ?_, ha1, ?_⟩
      · rcases hs1 with hs1 | ⟨hs1, _⟩ <;> omega
      · intro hc
        rcases hs1 with hs1 | ⟨hs1, hcap1⟩
        · rcases hc with hc | hc
          · exact Or.inl hc
          · exact Or.inr (by omega)
        · exact hcap1

theorem inner_loop_spec (cfg : Config) (fuel : Nat) :
    ∀ (st : St) (evs : List Ev), LoopInv cfg st (inner_loop cfg fuel st evs) := by
  induction fuel with
  | zero =>
    intro st evs
    simp only [inner_loop]
    exact ⟨rfl, Nat.le_refl _, rfl, fun h => h⟩
  | succ fuel ih =>
    intro st evs
    have hl : LoopInv cfg st
        (process_list cfg { st with cycle := st.cycle + 1 } cfg.messages evs) :=
      process_list_spec cfg cfg.messages { st with cycle := st.cycle + 1 } evs
    simp only [inner_loop]
    cases hr : (process_list cfg { st with cycle := st.cycle + 1 } cfg.messages evs).res with
    | next st2 =>
      unfold LoopInv at hl
      rw [hr] at hl
      obtain ⟨hb0, hs1, ha1, hc1, hf1⟩ := hl
      have h2 := ih st2 (process_list cfg { st with cycle := st.cycle + 1 } cfg.messages evs).rest
      unfold LoopInv at h2 ⊢
      cases hr2 : (inner_loop cfg fuel st2 (process_list cfg { st with cycle := st.cycle + 1 } cfg.messages evs).rest).res with
      | next st3 =>
        rw [hr2] at h2
        obtain ⟨hb2, hs2, ha2, hc2, hf2⟩ := h2
        refine ⟨?_, by omega, by omega, fun hc => hc2 (hc1 hc), ?_⟩
        · rw [backoff_list_append, hb0, hb2]
          rfl
        · rw [frame_count_append, hf1, hf2]
          omega
      | ret st3 =>
        rw [hr2] at h2
        obtain ⟨hb2, hs2, ha2, hpos, hle, hf2, hexact⟩ := h2
        refine ⟨?_, by omega, by omega, hpos, hle, ?_, fun hc => hexact (hc1 hc)⟩
        · rw [backoff_list_append, hb0, hb2]
          rfl
        · rw [frame_count_append, hf1, hf2]
          omega
      | raised e st3 =>
        rw [hr2] at h2
        obtain ⟨hb2, hs2, ha2, hc2, he⟩ := h2
        exact ⟨by rw [backoff_list_append, hb0, hb2]; rfl,
          by omega, by omega, fun hc => hc2 (hc1 hc), he⟩
      | stuck st3 =>
        rw [hr2] at h2
        obtain ⟨hb2, hs2, ha2, hc2⟩ := h2
        exact ⟨by rw [backoff_list_append, hb0, hb2]; rfl,
          by omega, by omega, fun hc => hc2 (hc1 hc)⟩
    | ret st1 => exact hl
    | raised e st1 => exact hl
    | stuck st1 => exact hl

/-- Prepending the freshly computed backoff to a backoff trace that
follows the formula from `attempt + 1` gives a trace that follows the
formula from `attempt`. -/
theorem backoff_cons_formula (a n : Nat) :
    min 30 (a + 2) :: ((List.range n).map fun i => min 30 (a + 1 + 2 + i)) =
      (List.range (n + 1)).map fun i => min 30 (a + 2 + i) := by
  rw [List.range_succ_eq_map, List.map_cons, List.map_map]
  refine congrArg₂ List.cons (by omega) (List.map_congr_left fun i _ => ?_)
  show min 30 (a + 1 + 2 + i) = min 30 (a + 2 + (i + 1))
  omega

theorem outer_loop_spec (cfg : Config) (fuel : Nat) :
    ∀ (st : St) (evs : List Ev), RunInv cfg st (outer_loop cfg fuel st evs) := by
  induction fuel with
  | zero =>
    intro st evs
    simp only [outer_loop]
    exact ⟨rfl, Nat.le_refl _, rfl, fun h => h⟩
  | succ fuel ih =>
    intro st evs
    cases evs with
    | nil =>
      simp only [outer_loop]
      exact ⟨rfl, Nat.le_refl _, rfl, fun h => h⟩
    | cons ev evs1 =>
      cases ev with
      | connectOk =>
        have hi : LoopInv cfg st (inner_loop cfg fuel st evs1) :=
          inner_loop_spec cfg fuel st evs1
        unfold LoopInv at hi
        simp only [outer_loop]
        cases hr : (inner_loop cfg fuel st evs1).res with
        | ret st1 =>
          rw [hr] at hi
          obtain ⟨hb0, hs1, ha1, hpos, hle, hf1, hexact⟩ := hi
          have hbc : backoff_list (Act.connect :: (inner_loop cfg fuel st evs1).acts) =
              backoff_list (inner_loop cfg fuel st evs1).acts := rfl
          refine ⟨?_, hpos, hs1, ?_, hexact, ?_⟩
          · rw [hbc, hb0]
            rfl
          · rw [hbc, hb0]
            simp [ha1]
          · intro _
            show frame_count (inner_loop cfg fuel st evs1).acts = st1.sentTotal - st.sentTotal
            exact hf1
        | raised e st1 =>
          rw [hr] at hi
          obtain ⟨hb0, hs1, ha1, hc1, hne, huee⟩ := hi
          cases hcaught : caught_by_fault_handler e with
          | false =>
            simp only [hcaught, Bool.false_eq_true, if_false]
            refine ⟨?_, hs1, ?_, hc1, hcaught, hne, huee⟩
            · show backoff_list (inner_loop cfg fuel st evs1).acts =
                (List.range (backoff_list (inner_loop cfg fuel st evs1).acts).length).map
                  fun i => min 30 (st.attempt + 2 + i)
              rw [hb0]
              rfl
            · show st1.attempt = st.attempt +
                (backoff_list (inner_loop cfg fuel st evs1).acts).length
              rw [hb0, ha1]
              rfl
          | true =>
            simp only [hcaught, if_true]
            have h2 := ih (fault_update st1)
              (inner_loop cfg fuel st evs1).rest
            unfold RunInv at h2 ⊢
            have hacts : backoff_list (Act.connect :: (inner_loop cfg fuel st evs1).acts ++
                Act.backoff (backoff_of (fault_update st1)) ::
                  (outer_loop cfg fuel (fault_update st1)
                    (inner_loop cfg fuel st evs1).rest).acts) =
                backoff_of (fault_update st1) ::
                  backoff_list (outer_loop cfg fuel (fault_update st1)
                    (inner_loop cfg fuel st evs1).rest).acts := by
              show backoff_list ((inner_loop cfg fuel st evs1).acts ++
                Act.backoff (backoff_of (fault_update st1)) :: _) = _
              rw [backoff_list_append, hb0]
              rfl
            have hbof : backoff_of (fault_update st1) = min 30 (st.attempt + 2) := by
              unfold backoff_of fault_update
              simp only []
              rw [ha1]
              omega
            have hfa : (fault_update st1).attempt = st.attempt + 1 := by
              unfold fault_update
              simp only []
              rw [ha1]
            have hfs : (fault_update st1).sentTotal = st1.sentTotal := rfl
            obtain ⟨hmap2, h2rest⟩ := h2
            constructor
            · rw [hacts, hmap2, hbof, List.length_cons, List.length_map,
                List.length_range]
              rw [hfa]
              exact backoff_cons_formula st.attempt _
            · cases ho : (outer_loop cfg fuel (fault_update st1)
                  (inner_loop cfg fuel st evs1).rest).out with
              | done st2 =>
                rw [ho] at h2rest
                obtain ⟨g1, g2, g3, g4, g5⟩ := h2rest
                refine ⟨g1, by omega, ?_, ?_, ?_⟩
                · rw [hacts, List.length_cons, g3, hfa]
                  omega
                · intro hc
                  refine g4 ?_
                  rcases hc1 hc with hcs | hcs
                  · exact Or.inl hcs
                  · right
                    rw [hfs]
                    exact hcs
                · intro habs
                  rw [hacts] at habs
                  exact absurd habs (by simp)
              | running st2 =>
                rw [ho] at h2rest
                obtain ⟨g1, g2, g3⟩ := h2rest
                refine ⟨by omega, ?_, ?_⟩
                · rw [hacts, List.length_cons, g2, hfa]
                  omega
                · intro hc
                  refine g3 ?_
                  rcases hc1 hc with hcs | hcs
                  · exact Or.inl hcs
                  · right
                    rw [hfs]
                    exact hcs
              | uncaught e2 st2 =>
                rw [ho] at h2rest
                obtain ⟨g1, g2, g3, g4, g5, g6⟩ := h2rest
                refine ⟨by omega, ?_, ?_, g4, g5, g6⟩
                · rw [hacts, List.length_cons, g2, hfa]
                  omega
                · intro hc
                  refine g3 ?_
                  rcases hc1 hc with hcs | hcs
                  · exact Or.inl hcs
                  · right
                    rw [hfs]
                    exact hcs
        | stuck st1 =>
          rw [hr] at hi
          obtain ⟨hb0, hs1, ha1, hc1⟩ := hi
          refine ⟨?_, hs1, ?_, hc1⟩
          · show backoff_list (inner_loop cfg fuel st evs1).acts =
              (List.range (backoff_list (inner_loop cfg fuel st evs1).acts).length).map
                fun i => min 30 (st.attempt + 2 + i)
            rw [hb0]
            rfl
          · show st1.attempt = st.attempt +
              (backoff_list (inner_loop cfg fuel st evs1).acts).length
            rw [hb0, ha1]
            rfl
        | next st1 =>
          rw [hr] at hi
          obtain ⟨hb0, hs1, ha1, hc1, _⟩ := hi
          refine ⟨?_, hs1, ?_, hc1⟩
          · show backoff_list (inner_loop cfg fuel st evs1).acts =
              (List.range (backoff_list (inner_loop cfg fuel st evs1).acts).length).map
                fun i => min 30 (st.attempt + 2 + i)
            rw [hb0]
            rfl
          · show st1.attempt = st.attempt +
              (backoff_list (inner_loop cfg fuel st evs1).acts).length
            rw [hb0, ha1]
            rfl
      | connectFail e =>
        simp only [outer_loop, caught_by_fault_handler, if_true]
        have h2 := ih (fault_update st) evs1
        unfold RunInv at h2 ⊢
        have hacts : backoff_list (Act.connect :: Act.backoff (backoff_of (fault_update st)) ::
            (outer_loop cfg fuel (fault_update st) evs1).acts) =
            backoff_of (fault_update st) ::
              backoff_list (outer_loop cfg fuel (fault_update st) evs1).acts := rfl
        have hbof : backoff_of (fault_update st) = min 30 (st.attempt + 2) := by
          unfold backoff_of fault_update
          simp only []
          omega
        have hfa : (fault_update st).attempt = st.attempt + 1 := rfl
        have hfs : (fault_update st).sentTotal = st.sentTotal := rfl
        obtain ⟨hmap2, h2rest⟩ := h2
        constructor
        · rw [hacts, hmap2, hbof, List.length_cons, List.length_map, List.length_range]
          rw [hfa]
          exact backoff_cons_formula st.attempt _
        · cases ho : (outer_loop cfg fuel (fault_update st) evs1).out with
          | done st2 =>
            rw [ho] at h2rest
            obtain ⟨g1, g2, g3, g4, g5⟩ := h2rest
            refine ⟨g1, by omega, ?_, ?_, ?_⟩
            · rw [hacts, List.length_cons, g3, hfa]
              omega
            · intro hc
              refine g4 ?_
              rcases hc with hc | hc
              · exact Or.inl hc
              · right
                rw [hfs]
                omega
            · intro habs
              rw [hacts] at habs
              exact absurd habs (by simp)
          | running st2 =>
            rw [ho] at h2rest
            obtain ⟨g1, g2, g3⟩ := h2rest
            refine ⟨by omega, ?_, ?_⟩
            · rw [hacts, List.length_cons, g2, hfa]
              omega
            · intro hc
              refine g3 ?_
              rcases hc with hc | hc
              · exact Or.inl hc
              · right
                rw [hfs]
                omega
          | uncaught e2 st2 =>
            rw [ho] at h2rest
            obtain ⟨g1, g2, g3, g4, g5, g6⟩ := h2rest
            refine ⟨by omega, ?_, ?_, g4, g5, g6⟩
            · rw [hacts, List.length_cons, g2, hfa]
              omega
            · intro hc
              refine g3 ?_
              rcases hc with hc | hc
              · exact Or.inl hc
              · right
                rw [hfs]
                omega
      | sendOk =>
        simp only [outer_loop]
        exact ⟨rfl, Nat.le_refl _, rfl, fun h => h⟩
      | sendFail e =>
        simp only [outer_loop]
        exact ⟨rfl, Nat.le_refl _, rfl, fun h => h⟩
      | recv d =>
        simp only [outer_loop]
        exact ⟨rfl, Nat.le_refl _, rfl, fun h => h⟩
      | recvFail e =>
        simp only [outer_loop]
        exact ⟨rfl, Nat.le_refl _, rfl, fun h => h⟩

theorem capOk_init (cap : Nat) : capOk cap initSt :=
  Nat.eq_zero_or_pos cap

theorem send_messages_spec (cfg : Config) (evs : List Ev) (fuel : Nat)
    (hne : cfg.messages ≠ []) :
    RunInv cfg initSt (send_messages cfg evs fuel) := by
  unfold send_messages
  rw [if_neg (by simpa [List.isEmpty_iff] using hne)]
  exact outer_loop_spec cfg fuel initSt evs

/-! ### The claims -/

/-- Claim C1: for a positive cap and a non-empty message set, every
possible outcome of every run (any environment script, any fuel — and
every point of a run is itself the final state of a shorter run) keeps
`sentTotal` at most the cap; the normal return (`done`) happens exactly
with `sentTotal = cap`, and it is the sole normal termination (running
and uncaught outcomes have `sentTotal` strictly below the cap); against
a responsive peer (a run that slept no backoff) the number of frames
written equals the cap. -/
theorem claim_C1 (cfg : Config) (evs : List Ev) (fuel : Nat)
    (hpos : 0 < cfg.repeatCount) (hne : cfg.messages ≠ []) :
    (∀ st, (send_messages cfg evs fuel).out = .done st →
        st.sentTotal = cfg.repeatCount ∧
        (backoff_list (send_messages cfg evs fuel).acts = [] →
          frame_count (send_messages cfg evs fuel).acts = cfg.repeatCount)) ∧
    (∀ st, (send_messages cfg evs fuel).out = .running st →
        st.sentTotal < cfg.repeatCount) ∧
    (∀ e st, (send_messages cfg evs fuel).out = .uncaught e st →
        st.sentTotal < cfg.repeatCount) := by
  have h := send_messages_spec cfg evs fuel hne
  unfold RunInv at h
  obtain ⟨-, h⟩ := h
  refine ⟨?_, ?_, ?_⟩
  · intro st hdone
    rw [hdone] at h
    obtain ⟨g1, g2, g3, g4, g5⟩ := h
    have hsent := g4 (capOk_init cfg.repeatCount)
    refine ⟨hsent, fun hb => ?_⟩
    rw [g5 hb, hsent]
    simp [initSt]
  · intro st hrun
    rw [hrun] at h
    obtain ⟨g1, g2, g3⟩ := h
    rcases g3 (capOk_init cfg.repeatCount) with h0 | h0
    · omega
    · exact h0
  · intro e st hunc
    rw [hunc] at h
    obtain ⟨g1, g2, g3, -⟩ := h
    rcases g3 (capOk_init cfg.repeatCount) with h0 | h0
    · omega
    · exact h0

theorem claim_C1_witness :
    St.sentTotal ⟨0, 2, 2, 0⟩ = cfg1.repeatCount ∧
      frame_count (send_messages cfg1 sc1 5).acts = cfg1.repeatCount := by
  have h := (claim_C1 cfg1 sc1 5 (by decide) (by decide)).1 ⟨0, 2, 2, 0⟩ (by decide)
  exact ⟨h.1, h.2 (by decide)⟩

/-- Claim C8: with cap 0 the run never reaches the normal-termination
return: no script and no amount of fuel produces a `done` outcome; and
when every message is encodable the run is still in its loops
(`running`) whenever the environment stops feeding it, so it stops only
when externally interrupted. -/
theorem claim_C8 (cfg : Config) (hcap : cfg.repeatCount = 0)
    (evs : List Ev) (fuel : Nat) :
    (∀ st, (send_messages cfg evs fuel).out ≠ .done st) ∧
    (cfg.messages ≠ [] → (∀ s, (cfg.enc s).isSome) →
      ∃ st, (send_messages cfg evs fuel).out = .running st) := by
  constructor
  · intro st hdone
    by_cases hne : cfg.messages = []
    · unfold send_messages at hdone
      rw [if_pos (by simpa [List.isEmpty_iff] using hne)] at hdone
      exact Outcome.noConfusion hdone
    · have h := send_messages_spec cfg evs fuel hne
      unfold RunInv at h
      obtain ⟨-, h⟩ := h
      rw [hdone] at h
      exact absurd h.1 (by omega)
  · intro hne henc
    have h := send_messages_spec cfg evs fuel hne
    unfold RunInv at h
    obtain ⟨-, h⟩ := h
    cases ho : (send_messages cfg evs fuel).out with
    | done st =>
      rw [ho] at h
      exact absurd h.1 (by omega)
    | running st => exact ⟨st, rfl⟩
    | uncaught e st =>
      rw [ho] at h
      obtain ⟨-, -, -, hcaught, hnv, huee⟩ := h
      cases e with
      | net ne => exact absurd hcaught (by simp [caught_by_fault_handler])
      | unicodeEncodeError =>
        obtain ⟨s, hs⟩ := huee rfl
        have hsome := henc s
        rw [hs] at hsome
        exact absurd hsome (by simp)
      | valueError => exact absurd rfl hnv

theorem claim_C8_witness :
    cfg0.repeatCount = 0 ∧
      (send_messages cfg0 [Ev.connectOk, Ev.sendOk] 3).out ≠ Outcome.done ⟨0, 1, 2, 0⟩ :=
  ⟨rfl, (claim_C8 cfg0 rfl [Ev.connectOk, Ev.sendOk] 3).1 ⟨0, 1, 2, 0⟩⟩

/-- Claim C9: a connection-level fault during the send (`sendall`
answered by a fault) or during the ACK wait (a recv fault) makes the
message body return `raised` with the entry state (only the uuid
counter possibly advanced) — `sentTotal` untouched; the increment
happens exactly in `finish_msg`, i.e. only after the send and any
ACK wait completed; and the outer fault handler's state update
(`fault_update`, source lines 94-96) changes only `attempt`, retaining
the counts of previously completed messages. -/
theorem claim_C9 :
    (∀ (cfg : Config) (st : St) (m : List Char) (evs : List Ev) (e : NetExc)
        (fr : List Nat),
        build_mllp_frame cfg.enc (rewrite_msh (cfg.uuidGen st.uuidIdx) m) = some fr →
        process_msg cfg st m (.sendFail e :: evs) =
          ⟨.raised (.net e) (uuid_bump st m), evs, [.frame fr]⟩) ∧
    (∀ (cfg : Config) (st : St) (m : List Char) (evs : List Ev) (e : NetExc)
        (fr : List Nat),
        cfg.ack = true →
        build_mllp_frame cfg.enc (rewrite_msh (cfg.uuidGen st.uuidIdx) m) = some fr →
        (ack_loop evs).res = .raised e →
        process_msg cfg st m (.sendOk :: evs) =
          ⟨.raised (.net e) (uuid_bump st m), (ack_loop evs).rest, [.frame fr]⟩) ∧
    (∀ (st : St) (m : List Char), (uuid_bump st m).sentTotal = st.sentTotal) ∧
    (∀ (cfg : Config) (st : St) (fr : List Nat) (evs : List Ev),
        ((finish_msg cfg st fr evs).res).state.sentTotal = st.sentTotal + 1) ∧
    (∀ st : St, (fault_update st).sentTotal = st.sentTotal ∧
        (fault_update st).cycle = st.cycle ∧ (fault_update st).uuidIdx = st.uuidIdx) := by
  refine ⟨?_, ?_, uuid_bump_sent, ?_, fun st => ⟨rfl, rfl, rfl⟩⟩
  · intro cfg st m evs e fr hb
    simp only [process_msg, hb]
  · intro cfg st m evs e fr hack hb hres
    simp only [process_msg, hb, hack, if_true, hres]
  · intro cfg st fr evs
    simp only [finish_msg]
    split
    · rfl
    · split
      · split <;> rfl
      · rfl

theorem claim_C9_witness :
    process_msg cfg1 initSt msgA [Ev.sendFail NetExc.osErr] =
      ⟨StepRes.raised (PyExc.net NetExc.osErr) initSt, [],
        [Act.frame [11, 65, 28, 13]]⟩ :=
  claim_C9.1 cfg1 initSt msgA [] NetExc.osErr [11, 65, 28, 13] (by decide)

/-- Claim C10: with an empty message set, `send_messages` raises the
configuration `ValueError` immediately — the result is that uncaught
exception with the script unconsumed and an empty action trace (no
connection attempt, no frame, no sleep); with a non-empty set this
exception is never raised (the only other uncaught exception is the
`UnicodeEncodeError`, a different object, and network exceptions are
always caught). -/
theorem claim_C10 (cfg : Config) (evs : List Ev) (fuel : Nat) :
    (cfg.messages = [] →
      send_messages cfg evs fuel = ⟨.uncaught .valueError initSt, evs, []⟩) ∧
    (cfg.messages ≠ [] →
      ∀ e st, (send_messages cfg evs fuel).out = .uncaught e st →
        e ≠ .valueError) := by
  constructor
  · intro he
    unfold send_messages
    rw [if_pos (by simpa [List.isEmpty_iff] using he)]
  · intro hne e st ho
    have h := send_messages_spec cfg evs fuel hne
    unfold RunInv at h
    obtain ⟨-, h⟩ := h
    rw [ho] at h
    exact h.2.2.2.2.1

theorem claim_C10_witness :
    send_messages cfgEmpty [Ev.connectOk] 3 =
      ⟨Outcome.uncaught PyExc.valueError initSt, [Ev.connectOk], []⟩ ∧
      (send_messages cfg1 sc1 5).out ≠ Outcome.uncaught PyExc.valueError ⟨0, 0, 0, 0⟩ :=
  ⟨(claim_C10 cfgEmpty [Ev.connectOk] 3).1 rfl,
    fun h => (claim_C10 cfg1 sc1 5).2 (by decide) PyExc.valueError ⟨0, 0, 0, 0⟩ h rfl⟩

/-- Claim C5 (code bug): the failure counter is never reset.  The
source's `else: attempt = 0` (line 99) is dead code — the `try` suite
always either raises (handled on line 94) or executes `return`, and a
`try` body left by `return` skips the `else` clause.  Concretely: after
the script fault / successful connect+send / fault, the two backoffs
slept are 2 and then 3 = min(30, 1+2) — the counter kept its historical
value 1 through the fully successful connect+send instead of resetting
to 0.  In general, the final `attempt` of any run equals the total
number of backoffs ever slept since run start. -/
theorem claim_C5 :
    backoff_list (send_messages cfg0 scC6 5).acts = [2, 3] ∧
    (send_messages cfg0 scC6 5).out = .running ⟨2, 1, 2, 0⟩ ∧
    (∀ (cfg : Config) (evs : List Ev) (fuel : Nat) (st : St),
        cfg.messages ≠ [] →
        (send_messages cfg evs fuel).out = .running st →
        st.attempt = (backoff_list (send_messages cfg evs fuel).acts).length) := by
  refine ⟨by decide, by decide, ?_⟩
  intro cfg evs fuel st hne ho
  have h := send_messages_spec cfg evs fuel hne
  unfold RunInv at h
  obtain ⟨-, h⟩ := h
  rw [ho] at h
  rw [h.2.1]
  simp [initSt]

theorem claim_C5_witness :
    St.attempt ⟨2, 1, 2, 0⟩ =
      (backoff_list (send_messages cfg0 scC6 5).acts).length :=
  claim_C5.2.2 cfg0 scC6 5 ⟨2, 1, 2, 0⟩ (by decide) (by decide)

/-- Claim C2 counterexample: with a message the codec cannot represent,
the run's outcome is the uncaught `UnicodeEncodeError` — the run
terminates because of it — and no backoff was ever slept; the claim
says the error is caught by the outer handler, triggers backoff/retry
and is never fatal. -/
theorem claim_C2_counterexample :
    (send_messages cfgC2 [Ev.connectOk] 2).out =
        Outcome.uncaught PyExc.unicodeEncodeError ⟨0, 0, 1, 0⟩ ∧
      backoff_list (send_messages cfgC2 [Ev.connectOk] 2).acts = [] := by
  decide

/-- Claim C2 as amended: an `EncodingError` raised while framing aborts
the current cycle, but it is *not* caught by the fault handler — the
`except` tuple on line 94 matches only `ConnectionRefusedError`,
`TimeoutError` and `OSError`, and `UnicodeEncodeError` is a
`ValueError` — so it propagates out of the supervisory loop uncaught
and is fatal to the run: no backoff/retry happens for it. -/
theorem claim_C2_amended :
    caught_by_fault_handler PyExc.unicodeEncodeError = false ∧
    (∀ (cfg : Config) (st : St) (m : List Char) (evs : List Ev),
        cfg.enc (rewrite_msh (cfg.uuidGen st.uuidIdx) m) = none →
        (process_msg cfg st m evs).res =
          .raised .unicodeEncodeError (uuid_bump st m)) ∧
    (∀ (cfg : Config) (fuel : Nat) (st : St) (evs : List Ev) (e : PyExc)
        (st1 : St),
        (inner_loop cfg fuel st evs).res = .raised e st1 →
        caught_by_fault_handler e = false →
        (outer_loop cfg (fuel + 1) st (.connectOk :: evs)).out =
          .uncaught e st1) := by
  refine ⟨rfl, ?_, ?_⟩
  · intro cfg st m evs henc
    have hb : build_mllp_frame cfg.enc (rewrite_msh (cfg.uuidGen st.uuidIdx) m) = none := by
      unfold build_mllp_frame
      rw [henc]
      rfl
    simp only [process_msg, hb]
  · intro cfg fuel st evs e st1 hres hcaught
    simp only [outer_loop, hres, hcaught, Bool.false_eq_true, if_false]

theorem claim_C2_witness :
    (process_msg cfgC2 initSt msgA []).res =
      StepRes.raised PyExc.unicodeEncodeError initSt :=
  claim_C2_amended.2.1 cfgC2 initSt msgA [] rfl

/-- Claim C6 counterexample: in the run whose script is
fault / successful connect + fully successful send / fault, the second
backoff follows exactly one connection fault since the last fully
successful connect-and-send, so the claim predicts min(30, 1+1) = 2
time units; the code sleeps 3 (its counter was never reset, see C5). -/
theorem claim_C6_counterexample :
    backoff_list (send_messages cfg0 scC6 5).acts = [2, 3] ∧
      (backoff_list (send_messages cfg0 scC6 5).acts)[1]? ≠
        some (min 30 (1 + 1)) := by
  decide

/-- Claim C6 as amended: counting faults from run start instead of from
the last success (the counter never resets), the (k+1)-th backoff slept
(0-indexed k) equals min(30, 1 + (k+1)) — i.e. after j connection
faults *in total* the backoff is min(30, 1+j); the sequence is
monotonically non-decreasing and capped at 30; and an exception the
fault handler matches (every connection fault) never escapes the run —
the run goes on retrying. -/
theorem claim_C6_amended (cfg : Config) (evs : List Ev) (fuel : Nat)
    (hne : cfg.messages ≠ []) :
    backoff_list (send_messages cfg evs fuel).acts =
      (List.range (backoff_list (send_messages cfg evs fuel).acts).length).map
        (fun k => min 30 (1 + (k + 1))) ∧
    (backoff_list (send_messages cfg evs fuel).acts).Pairwise (· ≤ ·) ∧
    (∀ b ∈ backoff_list (send_messages cfg evs fuel).acts, b ≤ 30) ∧
    (∀ e st, (send_messages cfg evs fuel).out = .uncaught e st →
      caught_by_fault_handler e = false) := by
  have h := send_messages_spec cfg evs fuel hne
  unfold RunInv at h
  obtain ⟨hmap, hrest⟩ := h
  have hmap' : backoff_list (send_messages cfg evs fuel).acts =
      (List.range (backoff_list (send_messages cfg evs fuel).acts).length).map
        (fun k => min 30 (1 + (k + 1))) := by
    rw [hmap]
    rw [List.length_map, List.length_range]
    refine List.map_congr_left fun i _ => ?_
    show min 30 (initSt.attempt + 2 + i) = min 30 (1 + (i + 1))
    simp only [initSt]
    omega
  refine ⟨hmap', ?_, ?_, ?_⟩
  · rw [hmap']
    refine List.Pairwise.map _ (fun a b hab => ?_)
      (List.pairwise_le_range (backoff_list (send_messages cfg evs fuel).acts).length)
    omega
  · intro b hb
    rw [hmap'] at hb
    obtain ⟨i, -, rfl⟩ := List.mem_map.mp hb
    omega
  · intro e st ho
    rw [ho] at hrest
    exact hrest.2.2.2.1

theorem claim_C6_amended_witness :
    backoff_list (send_messages cfg0 scC6 5).acts =
      (List.range (backoff_list (send_messages cfg0 scC6 5).acts).length).map
        (fun k => min 30 (1 + (k + 1))) :=
  (claim_C6_amended cfg0 scC6 5 (by decide)).1

/-- Claim C7: for a message the codec can represent, the frame is
exactly 0x0B ++ payload ++ 0x1C 0x0D, so it starts with 0x0B, satisfies
`is_terminated` (ends with 0x1C 0x0D), and the bytes strictly between
the leading marker and the two trailing bytes are the payload, which
the codec's decoder (assumed to invert the encoder on this payload, as
a real text codec does) maps back to the original message. -/
theorem claim_C7 (enc : List Char → Option (List Nat))
    (dec : List Nat → Option (List Char)) (m : List Char)
    (payload fr : List Nat)
    (henc : enc m = some payload)
    (hfr : build_mllp_frame enc m = some fr)
    (hdec : dec payload = some m) :
    fr = START_BLOCK :: payload ++ [END_BLOCK, CARRIAGE_RETURN] ∧
    fr.head? = some 0x0b ∧
    is_terminated fr = true ∧
    dec ((fr.drop 1).take (fr.length - 3)) = some m := by
  have hfr' : fr = mllp_wrap payload := by
    unfold build_mllp_frame at hfr
    rw [henc] at hfr
    simp only [Option.map_some'] at hfr
    exact (Option.some.inj hfr).symm
  subst hfr'
  refine ⟨rfl, rfl, ?_, ?_⟩
  · have hsuf : [END_BLOCK, CARRIAGE_RETURN] <:+
        START_BLOCK :: payload ++ [END_BLOCK, CARRIAGE_RETURN] :=
      ⟨START_BLOCK :: payload, by simp⟩
    simpa [is_terminated, mllp_wrap] using List.isSuffixOf_iff_suffix.mpr hsuf
  · have h1 : (mllp_wrap payload).drop 1 =
        payload ++ [END_BLOCK, CARRIAGE_RETURN] := rfl
    have h2 : (mllp_wrap payload).length - 3 = payload.length := by
      simp [mllp_wrap]
    rw [h1, h2, List.take_left]
    exact hdec

theorem claim_C7_witness :
    ascii_enc msg7 = some pay7 ∧ ascii_dec pay7 = some msg7 ∧
      ascii_dec ((fr7.drop 1).take (fr7.length - 3)) = some msg7 :=
  ⟨by decide, by decide,
    (claim_C7 ascii_enc ascii_dec msg7 pay7 fr7 (by decide) (by decide)
      (by decide)).2.2.2⟩

/-- Claim C4 counterexample: the peer answers with two chunks, 0x1C
then 0x0D.  The accumulated receive buffer [0x1C] ++ [0x0D] satisfies
`IsTerminated`, yet the read loop does not end — it goes back to
blocking in `recv` (`starving`) — because the test of source lines
74-77 looks only at the last chunk, which neither contains 0x1C (for
the 0x0D chunk) nor ends with the full sequence. -/
theorem claim_C4_counterexample :
    (ack_loop [Ev.recv [0x1c], Ev.recv [0x0d]]).res = AckRes.starving ∧
      is_terminated ([0x1c] ++ [0x0d]) = true := by
  decide

/-- Claim C4 as amended: the per-chunk break test equals
`is_terminated` applied to that single chunk (the containment check on
line 74 is redundant), and the read loop stops exactly when some
*individual* chunk is empty (peer closed) or itself ends with
0x1C 0x0D — a terminator split across two chunks does not end the
loop. -/
theorem claim_C4_amended (chunks : List (List Nat)) :
    (∀ d, ack_break d = is_terminated d) ∧
    ((ack_loop (chunks.map Ev.recv)).res = AckRes.completed ↔
      ∃ d ∈ chunks, d = [] ∨ is_terminated d = true) := by
  refine ⟨ack_break_eq_is_terminated, ?_⟩
  induction chunks with
  | nil => simp [ack_loop]
  | cons d ds ih =>
    by_cases hd : d = []
    · subst hd
      simp [ack_loop]
    · by_cases hterm : is_terminated d = true
      · have hbreak : ack_break d = true := by
          rw [ack_break_eq_is_terminated]
          exact hterm
        simp only [List.map_cons, ack_loop, hd, if_neg hd, hbreak, if_true]
        constructor
        · intro _
          exact ⟨d, List.mem_cons_self d ds, Or.inr hterm⟩
        · intro _
          rfl
      · have hbreak : ack_break d = false := by
          rw [ack_break_eq_is_terminated]
          simpa using hterm
        simp only [List.map_cons, ack_loop, hd, if_neg hd, hbreak,
          Bool.false_eq_true, if_false]
        rw [ih]
        constructor
        · intro ⟨x, hx, hpx⟩
          exact ⟨x, List.mem_cons_of_mem d hx, hpx⟩
        · intro ⟨x, hx, hpx⟩
          rcases List.mem_cons.mp hx with hx1 | hx1
          · subst hx1
            rcases hpx with hpx | hpx
            · exact absurd hpx hd
            · exact absurd hpx hterm
          · exact ⟨x, hx1, hpx⟩

theorem claim_C4_witness :
    (ack_loop ([[72, 0x1c, 0x0d]].map Ev.recv)).res = AckRes.completed :=
  (claim_C4_amended [[72, 0x1c, 0x0d]]).2.mpr
    ⟨[72, 0x1c, 0x0d], by simp, Or.inr (by decide)⟩

/-- Claim C3 counterexample: in `PID|a|…|j\rMSH|x` the first segment
does not begin with the header tag (and `spec_trigger` is false), so
per the claim the sent payload must be byte-identical to the encoding
of the original; but `MSH|` occurs later in the message and the first
segment has 11 fields, so the code rewrites field 9 *of the PID
segment* and the frame differs. -/
theorem claim_C3_counterexample :
    spec_trigger cexMsg = false ∧
      rewrite_msh uuidX cexMsg ≠ cexMsg ∧
      build_mllp_frame ascii_enc (rewrite_msh uuidX cexMsg) ≠
        build_mllp_frame ascii_enc cexMsg := by
  decide

/-- Claim C3 as amended: the rewrite fires exactly under `msh_trigger`
— `"MSH|"` occurring as a substring *anywhere* in the message (not
necessarily heading the first segment) and the first segment having at
least ten pipe-delimited fields.  When it does not fire the message is
sent unmodified; when it fires (for any fresh token free of the two
separators, as a canonical hyphenated uuid is), only zero-indexed
field 9 of the first segment is replaced by the token: the other
segments are unchanged and every other field of the first segment is
unchanged. -/
theorem claim_C3_amended (uuid m : List Char)
    (h1 : '\r' ∉ uuid) (h2 : '|' ∉ uuid) :
    (msh_trigger m = false → rewrite_msh uuid m = m) ∧
    (msh_trigger m = true →
      splitChar '\r' (rewrite_msh uuid m) =
        joinChar '|' ((splitChar '|' ((splitChar '\r' m).headD [])).set 9 uuid) ::
          (splitChar '\r' m).tail ∧
      splitChar '|' ((splitChar '\r' (rewrite_msh uuid m)).headD []) =
        (splitChar '|' ((splitChar '\r' m).headD [])).set 9 uuid ∧
      (splitChar '|' ((splitChar '\r' (rewrite_msh uuid m)).headD []))[9]? =
        some uuid ∧
      (∀ i, i ≠ 9 →
        (splitChar '|' ((splitChar '\r' (rewrite_msh uuid m)).headD []))[i]? =
          (splitChar '|' ((splitChar '\r' m).headD []))[i]?)) := by
  constructor
  · intro hf
    unfold msh_trigger at hf
    by_cases hc : strContains m MSH_TAG
    · rw [hc, Bool.true_and] at hf
      have hlen : ¬((splitChar '|' ((splitChar '\r' m).headD [])).length > 9) :=
        of_decide_eq_false hf
      unfold rewrite_msh
      rw [if_pos hc]
      cases hsp : splitChar '\r' m with
      | nil => rfl
      | cons p0 rest =>
        rw [hsp] at hlen
        simp only [List.headD_cons] at hlen
        simp only [if_neg hlen]
    · unfold rewrite_msh
      rw [if_neg hc]
  · intro ht
    unfold msh_trigger at ht
    rw [Bool.and_eq_true] at ht
    have hc : strContains m MSH_TAG = true := ht.1
    have hly0 : (splitChar '|' ((splitChar '\r' m).headD [])).length > 9 :=
      of_decide_eq_true ht.2
    cases hsp : splitChar '\r' m with
    | nil => exact absurd hsp (splitChar_ne_nil '\r' m)
    | cons p0 rest =>
      rw [hsp] at hly0
      simp only [List.headD_cons] at hly0
      have hrw : rewrite_msh uuid m =
          joinChar '\r' (joinChar '|' ((splitChar '|' p0).set 9 uuid) :: rest) := by
        simp [rewrite_msh, hc, hsp, hly0]
      have hfieldsNoPipe : ∀ p ∈ splitChar '|' p0, '|' ∉ p :=
        not_mem_splitChar '|' p0
      have hp0NoCR : '\r' ∉ p0 :=
        not_mem_splitChar '\r' m p0 (hsp ▸ List.mem_cons_self p0 rest)
      have hfieldsNoCR : ∀ p ∈ splitChar '|' p0, '\r' ∉ p := by
        intro p hp hmem
        exact hp0NoCR ((splitChar_sublist '|' p0 p hp).subset hmem)
      have hANoPipe : ∀ p ∈ (splitChar '|' p0).set 9 uuid, '|' ∉ p := by
        intro p hp
        rcases List.mem_or_eq_of_mem_set hp with hp1 | hp1
        · exact hfieldsNoPipe p hp1
        · subst hp1
          exact h2
      have hANoCR : ∀ p ∈ (splitChar '|' p0).set 9 uuid, '\r' ∉ p := by
        intro p hp
        rcases List.mem_or_eq_of_mem_set hp with hp1 | hp1
        · exact hfieldsNoCR p hp1
        · subst hp1
          exact h1
      have hJNoCR : '\r' ∉ joinChar '|' ((splitChar '|' p0).set 9 uuid) := by
        intro hmem
        rcases mem_joinChar '|' _ '\r' hmem with habs | ⟨p, hp, hmem2⟩
        · exact absurd habs (by decide)
        · exact hANoCR p hp hmem2
      have hrestNoCR : ∀ q ∈ rest, '\r' ∉ q := fun q hq =>
        not_mem_splitChar '\r' m q (hsp ▸ List.mem_cons_of_mem p0 hq)
      have hsplit1 : splitChar '\r' (rewrite_msh uuid m) =
          joinChar '|' ((splitChar '|' p0).set 9 uuid) :: rest := by
        rw [hrw]
        refine splitChar_joinChar '\r' _ (by simp) ?_
        intro q hq
        rcases List.mem_cons.mp hq with hq1 | hq1
        · subst hq1
          exact hJNoCR
        · exact hrestNoCR q hq1
      have hAne : (splitChar '|' p0).set 9 uuid ≠ [] := by
        intro habs
        have hlen := congrArg List.length habs
        rw [List.length_set, List.length_nil] at hlen
        omega
      have hsplit2 : splitChar '|' (joinChar '|' ((splitChar '|' p0).set 9 uuid)) =
          (splitChar '|' p0).set 9 uuid :=
        splitChar_joinChar '|' _ hAne hANoPipe
      refine ⟨?_, ?_, ?_, ?_⟩
      · simp only [List.headD_cons, List.tail_cons]
        exact hsplit1
      · rw [hsplit1]
        simp only [List.headD_cons]
        exact hsplit2
      · rw [hsplit1]
        simp only [List.headD_cons]
        rw [hsplit2]
        exact List.getElem?_set_self (by omega)
      · intro i hi
        rw [hsplit1]
        simp only [List.headD_cons]
        rw [hsplit2]
        exact List.getElem?_set_ne (Ne.symm hi)

theorem claim_C3_witness :
    msh_trigger mshMsg = true ∧
      (splitChar '|' ((splitChar '\r' (rewrite_msh uuidX mshMsg)).headD []))[9]? =
        some uuidX :=
  ⟨by decide,
    ((claim_C3_amended uuidX mshMsg (by decide) (by decide)).2 (by decide)).2.2.1⟩

end MllpSender
